import Mathlib

/-!
Verification of the storeapp server (`src/main.py`): a shallow embedding of
its JSON data model, document normalization, persistence endpoints, token
codec, access guard and admin creation, together with theorems settling the
frozen claims about them.

Python JSON values are embedded as the inductive type `JVal`; Python dicts
are association lists with first-match lookup and in-place replacement,
mirroring Python's insertion-ordered dict semantics.
-/

/-- Embedding of a Python JSON value (`json.load` result / request body). -/
inductive JVal where
  | null
  | bool (b : Bool)
  | num (n : Int)
  | str (s : String)
  | arr (xs : List JVal)
  | obj (kvs : List (String × JVal))
deriving Repr

mutual

def JVal.beq : JVal → JVal → Bool
  | .null, .null => true
  | .bool a, .bool b => a == b
  | .num a, .num b => a == b
  | .str a, .str b => a == b
  | .arr xs, .arr ys => JVal.beqList xs ys
  | .obj xs, .obj ys => JVal.beqObj xs ys
  | _, _ => false

def JVal.beqList : List JVal → List JVal → Bool
  | [], [] => true
  | x :: xs, y :: ys => JVal.beq x y && JVal.beqList xs ys
  | _, _ => false

def JVal.beqObj : List (String × JVal) → List (String × JVal) → Bool
  | [], [] => true
  | (k, x) :: xs, (l, y) :: ys => k == l && JVal.beq x y && JVal.beqObj xs ys
  | _, _ => false

end

mutual

theorem JVal.beq_iff : ∀ a b : JVal, JVal.beq a b = true ↔ a = b
  | .null, .null => by simp [JVal.beq]
  | .bool a, .bool b => by simp [JVal.beq]
  | .num a, .num b => by simp [JVal.beq]
  | .str a, .str b => by simp [JVal.beq]
  | .arr xs, .arr ys => by
      simp only [JVal.beq, JVal.beqList_iff xs ys]
      constructor
      · intro h; rw [h]
      · intro h; injection h
  | .obj xs, .obj ys => by
      simp only [JVal.beq, JVal.beqObj_iff xs ys]
      constructor
      · intro h; rw [h]
      · intro h; injection h
  | .null, .bool _ | .null, .num _ | .null, .str _ | .null, .arr _ | .null, .obj _
  | .bool _, .null | .bool _, .num _ | .bool _, .str _ | .bool _, .arr _ | .bool _, .obj _
  | .num _, .null | .num _, .bool _ | .num _, .str _ | .num _, .arr _ | .num _, .obj _
  | .str _, .null | .str _, .bool _ | .str _, .num _ | .str _, .arr _ | .str _, .obj _
  | .arr _, .null | .arr _, .bool _ | .arr _, .num _ | .arr _, .str _ | .arr _, .obj _
  | .obj _, .null | .obj _, .bool _ | .obj _, .num _ | .obj _, .str _ | .obj _, .arr _ => by
      simp [JVal.beq]

theorem JVal.beqList_iff : ∀ xs ys : List JVal, JVal.beqList xs ys = true ↔ xs = ys
  | [], [] => by simp [JVal.beqList]
  | x :: xs, y :: ys => by
      simp only [JVal.beqList, Bool.and_eq_true, JVal.beq_iff x y, JVal.beqList_iff xs ys]
      constructor
      · rintro ⟨rfl, rfl⟩; rfl
      · intro h; injection h with h1 h2; exact ⟨h1, h2⟩
  | [], _ :: _ => by simp [JVal.beqList]
  | _ :: _, [] => by simp [JVal.beqList]

theorem JVal.beqObj_iff : ∀ xs ys : List (String × JVal), JVal.beqObj xs ys = true ↔ xs = ys
  | [], [] => by simp [JVal.beqObj]
  | (k, x) :: xs, (l, y) :: ys => by
      simp only [JVal.beqObj, Bool.and_eq_true, beq_iff_eq, JVal.beq_iff x y,
        JVal.beqObj_iff xs ys]
      constructor
      · rintro ⟨⟨rfl, rfl⟩, rfl⟩; rfl
      · intro h
        injection h with h1 h2
        injection h1 with h3 h4
        exact ⟨⟨h3, h4⟩, h2⟩
  | [], _ :: _ => by simp [JVal.beqObj]
  | _ :: _, [] => by simp [JVal.beqObj]

end

instance : DecidableEq JVal := fun a b =>
  decidable_of_iff (JVal.beq a b = true) (JVal.beq_iff a b)

/-- A Python value is hashable (usable as a dict key) unless it is a list or
a dict. -/
def JVal.hashable : JVal → Bool
  | .arr _ => false
  | .obj _ => false
  | _ => true

/-- Lookup in a Python dict represented as an insertion-ordered association
list (`d.get(k)` / `d[k]`): first match. -/
def alGet {κ : Type} [DecidableEq κ] : List (κ × JVal) → κ → Option JVal
  | [], _ => none
  | p :: rest, k => if p.1 = k then some p.2 else alGet rest k

/-- Assignment into a Python dict (`d[k] = v`): replace in place when the
key is present, otherwise append, as insertion-ordered dicts do. -/
def alSet {κ : Type} [DecidableEq κ] : List (κ × JVal) → κ → JVal → List (κ × JVal)
  | [], k, v => [(k, v)]
  | p :: rest, k, v => if p.1 = k then (k, v) :: rest else p :: alSet rest k v

/-- Fold a sequence of dict assignments into an accumulator dict. -/
def alFold {κ : Type} [DecidableEq κ] (acc : List (κ × JVal)) (l : List (κ × JVal)) :
    List (κ × JVal) :=
  l.foldl (fun acc p => alSet acc p.1 p.2) acc

/-- Python `base.update(st)`. -/
def dictUpdate (base st : List (String × JVal)) : List (String × JVal) :=
  alFold base st

/-- Python `dict(pairs)` (also how a dict comprehension and `json.load`
build a dict): first-insertion position, last value wins on duplicates. -/
def alDict {κ : Type} [DecidableEq κ] (l : List (κ × JVal)) : List (κ × JVal) :=
  alFold [] l

/-- Is the value a Python dict (`isinstance(v, dict)`)? -/
def isDict : JVal → Bool
  | .obj _ => true
  | _ => false

/-- Is the value a Python str? -/
def isStr : JVal → Bool
  | .str _ => true
  | _ => false

/-- Is the value a Python list? -/
def isArr : JVal → Bool
  | .arr _ => true
  | _ => false

/-- The default `"inventory"` dict of `default_store_data()`. -/
def invDefault : JVal :=
  .obj [("닭", .arr []), ("떡", .arr []), ("소스", .arr []), ("포장재", .arr [])]

/-- The default `"recipes"` dict of `default_store_data()`. -/
def recipesDefault : JVal :=
  .obj [("치킨", .obj []), ("떡볶이", .obj []), ("파스타", .obj []),
        ("사이드", .obj []), ("가게부", .obj [])]

/-- `default_store_data()` from `src/main.py`. -/
def default_store_data : List (String × JVal) :=
  [("inventory", invDefault), ("recipes", recipesDefault),
   ("memo", .str ""), ("ledger", .arr [])]

/-- One repair step of `normalize_store`:
`if not isinstance(base.get(k), T): base[k] = dflt`. -/
def fixKey (check : JVal → Bool) (dflt : JVal) (kvs : List (String × JVal))
    (k : String) : List (String × JVal) :=
  match alGet kvs k with
  | some v => if check v then kvs else alSet kvs k dflt
  | none => alSet kvs k dflt

/-- `normalize_store(st)` from `src/main.py`: start from the defaults,
overlay `st` when it is a dict, then reset each of the four required keys
whose value has the wrong container type. -/
def normalize_store (st : JVal) : List (String × JVal) :=
  let base := match st with
    | .obj kvs => dictUpdate default_store_data kvs
    | _ => default_store_data
  let base := fixKey isDict invDefault base "inventory"
  let base := fixKey isDict recipesDefault base "recipes"
  let base := fixKey isStr (.str "") base "memo"
  let base := fixKey isArr (.arr []) base "ledger"
  base

/-- The catalog dict `d` built by `normalize_all`: `stores` may hold
arbitrary JSON values (the code copies the persisted list as is), and
`byStore` is a Python dict whose keys are arbitrary hashable values
(strings from the persisted object, raw list elements via `setdefault`). -/
structure Catalog where
  stores : List JVal
  byStore : List (JVal × JVal)
  lastSync : String
deriving DecidableEq, Repr

/-- The default store names hard-coded in `normalize_all` (and in the
initial data file). -/
def default_stores : List JVal := [.str "김경영 요리 연구소", .str "청년회관"]

/-- One iteration of the `for s in d["stores"]` loop of `normalize_all`:
`d["byStore"].setdefault(s, default_store_data())` then
`d["byStore"][s] = normalize_store(d["byStore"][s])`. -/
def normStep (b : List (JVal × JVal)) (s : JVal) : List (JVal × JVal) :=
  if (alGet b s).isSome then
    alSet b s (.obj (normalize_store ((alGet b s).getD .null)))
  else
    alSet (b ++ [(s, .obj default_store_data)]) s
      (.obj (normalize_store ((alGet (b ++ [(s, .obj default_store_data)]) s).getD .null)))

/-- The `for s in d["stores"]` loop of `normalize_all`. Using a list or a
dict as a dict key raises `TypeError: unhashable type`, which the code does
not catch; the error is modelled as `Except.error`. -/
def normLoop : List JVal → Catalog → Except String Catalog
  | [], c => .ok c
  | s :: rest, c =>
    if s.hashable then
      normLoop rest { c with byStore := normStep c.byStore s }
    else .error "TypeError: unhashable type"

/-- `normalize_all(data)` from `src/main.py`. -/
def normalize_all (data : JVal) : Except String Catalog :=
  let d : Catalog :=
    match data with
    | .obj kvs =>
      let s := match alGet kvs "stores" with
        | some (.arr xs) => if xs.isEmpty then default_stores else xs
        | _ => default_stores
      let b := match alGet kvs "byStore" with
        | some (.obj bs) =>
          alDict (bs.map (fun p => ((.str p.1 : JVal), JVal.obj (normalize_store p.2))))
        | _ => []
      let ls := match alGet kvs "lastSync" with
        | some (.str t) => t
        | _ => ""
      ⟨s, b, ls⟩
    | _ => ⟨default_stores, [], ""⟩
  normLoop d.stores d

/-- `GET /data`: `normalize_all(_read_json(DATA_FILE, {}))`. The persisted
file is `some v` when it exists and parses to the JSON value `v`, `none`
when missing or unparseable (`_read_json` then returns the default `{}`). -/
def read_all (file : Option JVal) : Except String Catalog :=
  normalize_all (file.getD (.obj []))

/-- `POST /save`: the catalog that `save_all` persists for body `data`,
with `lastSync` stamped to the current time string. -/
def save_all (data : JVal) (nowStr : String) : Except String Catalog :=
  match normalize_all data with
  | .error e => .error e
  | .ok c => .ok { c with lastSync := nowStr }

/-- `POST /store/{store_name}` (`save_store`): the catalog persisted after
replacing one store's document, given the currently persisted file. -/
def save_store (file : Option JVal) (store_name : String) (store_data : JVal)
    (nowStr : String) : Except String Catalog :=
  match read_all file with
  | .error e => .error e
  | .ok data =>
    .ok ⟨if (.str store_name : JVal) ∈ data.stores then data.stores
         else data.stores ++ [.str store_name],
         alSet data.byStore (.str store_name) (.obj (normalize_store store_data)),
         nowStr⟩

/-- `GET /store/{store_name}` (`get_store`): the `store_data` field of the
response, given the currently persisted file. -/
def get_store (file : Option JVal) (store_name : String) :
    Except String (List (String × JVal)) :=
  match read_all file with
  | .error e => .error e
  | .ok data =>
    .ok (normalize_store (match alGet data.byStore (.str store_name) with
      | some (.obj kvs) => JVal.obj kvs
      | _ => .obj default_store_data))

/-- How `json.dump` renders a Python dict key: strings pass through, and
the primitive non-string keys the catalog can hold are coerced to their
JSON spelling; list/dict keys cannot arise (they are unhashable). -/
def keyToString : JVal → Option String
  | .str s => some s
  | .num n => some (toString n)
  | .bool b => some (if b then "true" else "false")
  | .null => some "null"
  | _ => none

/-- Render every `byStore` key as `json.dump` does, failing on an
unserializable key. -/
def keysToStrings : List (JVal × JVal) → Except String (List (String × JVal))
  | [] => .ok []
  | p :: rest =>
    match keyToString p.1 with
    | some k =>
      match keysToStrings rest with
      | .ok tail => .ok ((k, p.2) :: tail)
      | .error e => .error e
    | none => .error "TypeError: keys must be str, int, float, bool or None"

/-- Modelled from the spec: `_write_json` then `_read_json` of a catalog
(the `json` module, absent from `src/`) — the JSON value the next reader
sees. `json.dump` coerces non-string keys to strings, so distinct dict
keys may collapse to the same JSON key; `json.load` then keeps the last
value for a duplicated key (`alDict`). Fails only when a key is
unserializable, which `json.dump` rejects with `TypeError`. -/
def catalogToJVal (c : Catalog) : Except String JVal :=
  match keysToStrings c.byStore with
  | .error e => .error e
  | .ok pairs =>
    .ok (.obj [("stores", .arr c.stores),
               ("byStore", .obj (alDict pairs)),
               ("lastSync", .str c.lastSync)])

/-- The fixed token lifetime from `src/main.py`: `JWT_TTL_SEC = 60*60*12`. -/
def JWT_TTL_SEC : Int := 60 * 60 * 12

/-- The decoded token payload `{"sub": ..., "role": ..., "iat": ..., "exp": ...}`
built by `_make_token`. -/
structure Claims where
  sub : String
  role : String
  iat : Int
  exp : Int
deriving DecidableEq, Repr

/-- Injective encoding of an integer timestamp as a natural number. -/
def encInt (n : Int) : Nat := if 0 ≤ n then 2 * n.toNat else 2 * (-n).toNat - 1

/-- Inverse of `encInt`. -/
def decInt (k : Nat) : Int := if k % 2 = 0 then ((k / 2 : Nat) : Int) else -(((k + 1) / 2 : Nat) : Int)

/-- Length-prefixed encoding of a string as a list of naturals. -/
def encStr (s : String) : List Nat := s.data.length :: s.data.map Char.toNat

/-- Inverse of `encStr`: consume one length-prefixed string, return the rest. -/
def parseStr : List Nat → Option (String × List Nat)
  | [] => none
  | n :: rest =>
    if n ≤ rest.length then
      some (String.mk ((rest.take n).map Char.ofNat), rest.drop n)
    else none

/-- Modelled from the spec: the canonical payload bytes PyJWT builds from
`(sub, role, iat, exp)` (the JSON serialization inside `jwt.encode`, absent
from `src/`), as an injective byte encoding of the four fields. -/
def serializeClaims (c : Claims) : List Nat :=
  encStr c.sub ++ encStr c.role ++ [encInt c.iat, encInt c.exp]

/-- Modelled from the spec: the payload parser inside `jwt.decode` — fails
on any malformed payload, recovers the four fields otherwise. -/
def parseClaims (l : List Nat) : Option Claims := do
  let (sub, l1) ← parseStr l
  let (role, l2) ← parseStr l1
  match l2 with
  | [a, b] => some ⟨sub, role, decInt a, decInt b⟩
  | _ => none

/-- A token on the wire: payload portion plus transmitted MAC, as in the
`header.payload.signature` JWT shape (the constant header is elided). -/
structure Token where
  payload : List Nat
  sig : List Nat
deriving DecidableEq, Repr

/-- Modelled from the spec: the keyed message-authentication code over the
payload (HMAC-SHA256 inside PyJWT, absent from `src/`), idealized as a
collision-free keyed function. `1114112` is above every character code, so
the secret prefix cannot bleed into the message. -/
def macSign (secret : String) (msg : List Nat) : List Nat :=
  secret.data.map Char.toNat ++ 1114112 :: msg

/-- Modelled from the spec: `issue(user_id, role, ttl_seconds)` — the
repository's `_make_token` fixes `ttl` to `JWT_TTL_SEC`, the spec's issue
operation takes it as a parameter. -/
def make_token_ttl (secret user_id role : String) (now ttl : Int) : Token :=
  let payload := serializeClaims ⟨user_id, role, now, now + ttl⟩
  ⟨payload, macSign secret payload⟩

/-- `_make_token(user_id, role)` from `src/main.py`: payload
`{"sub": user_id, "role": role, "iat": now, "exp": now + JWT_TTL_SEC}`
signed with the server secret. -/
def make_token (secret user_id role : String) (now : Int) : Token :=
  make_token_ttl secret user_id role now JWT_TTL_SEC

/-- `_decode_token` (`jwt.decode(token, TOKEN_SECRET, algorithms=[JWT_ALG])`):
verify the MAC over the payload, parse the claims, reject when `exp` is at
or before the current time; `none` is the rejection signal (the raised
`jwt` exception). -/
def decode_token (secret : String) (now : Int) (t : Token) : Option Claims :=
  if macSign secret t.payload = t.sig then
    match parseClaims t.payload with
    | some c => if now < c.exp then some c else none
    | none => none
  else none

/-- Value of a decimal digit character. -/
def digitVal (c : Char) : Option Nat :=
  if '0' ≤ c ∧ c ≤ '9' then some (c.toNat - 48) else none

/-- Parse a nonempty all-digit string as a natural number. -/
def decimalNat (s : String) : Option Nat :=
  if s.data.isEmpty then none
  else s.data.foldlM (fun acc c => (digitVal c).map (fun d => acc * 10 + d)) 0

/-- Parse a `.`-separated list of decimal naturals. -/
def splitCharsAux (p : Char → Bool) : List Char → List Char → List String
  | [], acc => [String.mk acc.reverse]
  | c :: cs, acc =>
    if p c then String.mk acc.reverse :: splitCharsAux p cs []
    else splitCharsAux p cs (c :: acc)

/-- Split a string at every character satisfying `p`, keeping empty parts
(the semantics of Python `s.split(sep)` for a one-character separator). -/
def splitStr (s : String) (p : Char → Bool) : List String :=
  splitCharsAux p s.data []

def natListOfString (s : String) : Option (List Nat) :=
  (splitStr s (fun c => c = '.')).mapM decimalNat

/-- Modelled from the spec: decoding the URL-safe token string into payload
and MAC (the base64url segment split inside PyJWT, absent from `src/`);
fails on any malformed string. -/
def tokenOfString (s : String) : Option Token :=
  match splitStr s (fun c => c = '~') with
  | [p, q] =>
    match natListOfString p, natListOfString q with
    | some pl, some sg => some ⟨pl, sg⟩
    | _, _ => none
  | _ => none

/-- Render a list of naturals in the wire format of `tokenOfString`. -/
def stringOfNatList (l : List Nat) : String :=
  String.mk (((l.map (fun n => Nat.toDigits 10 n)).intersperse ['.']).flatten)

/-- Render a token in the wire format of `tokenOfString`. -/
def stringOfToken (t : Token) : String :=
  stringOfNatList t.payload ++ "~" ++ stringOfNatList t.sig

/-- `_decode_token` applied to a wire string: decode error or failed
verification both yield the rejection signal `none`. -/
def decode_token_str (secret : String) (now : Int) (s : String) : Option Claims :=
  (tokenOfString s).bind (decode_token secret now)

/-- The whitespace `str.split()` splits on and `str.strip()` strips. -/
def pyIsSpace (c : Char) : Bool :=
  c = ' ' || c = '\t' || c = '\n' || c = '\r' || c = Char.ofNat 11 || c = Char.ofNat 12

/-- ASCII lowercasing of a string (`str.lower()` on the ASCII headers the
guard compares). -/
def lowerStr (s : String) : String := String.mk (s.data.map Char.toLower)

/-- Python `str.strip()`: drop leading and trailing whitespace. -/
def pyStrip (s : String) : String :=
  String.mk (((s.data.dropWhile pyIsSpace).reverse.dropWhile pyIsSpace).reverse)

/-- Python `s.split()`: split on runs of whitespace, no empty parts. -/
def pySplit (s : String) : List String :=
  (splitStr s (fun c => pyIsSpace c)).filter (fun p => p ≠ "")

/-- `get_bearer_token(authorization)` from `src/main.py`: `None` for a
missing or empty header, the second word when the header is exactly two
words whose first lowercases to `"bearer"`, `None` otherwise. -/
def get_bearer_token (authorization : Option String) : Option String :=
  match authorization with
  | none => none
  | some a =>
    if a = "" then none
    else
      match pySplit a with
      | [p0, p1] => if lowerStr p0 = "bearer" then some p1 else none
      | _ => none

/-- Outcome of the `require_role` dependency: the decoded payload forwarded
to the handler, or an `HTTPException(status_code, detail)`. -/
inductive GuardResult where
  | ok (payload : Claims)
  | err (statusCode : Nat) (detail : String)
deriving DecidableEq, Repr

/-- `require_role(required)` from `src/main.py`, as the induced function of
the request's authorization header. -/
def require_role (required secret : String) (now : Int)
    (authorization : Option String) : GuardResult :=
  match get_bearer_token authorization with
  | none => .err 401 "Missing bearer token"
  | some tok =>
    match decode_token_str secret now tok with
    | none => .err 401 "Invalid token"
    | some payload =>
      if required = "admin" then
        if payload.role = "admin" ∨ payload.role = "superadmin" then .ok payload
        else .err 403 "Admin only"
      else if required = "superadmin" then
        if payload.role = "superadmin" then .ok payload
        else .err 403 "Superadmin only"
      else .ok payload

/-- The role order stated by the spec: `admin < superadmin`. -/
def roleRank (r : String) : Nat :=
  if r = "superadmin" then 2 else if r = "admin" then 1 else 0

/-- A claimed role satisfies a required minimum when it is equal or
strictly higher in the role order. -/
def roleSatisfies (claimed required : String) : Bool :=
  roleRank required ≤ roleRank claimed

/-- One record of the `admins` list in the admins file. -/
structure AdminRec where
  id : String
  pw_hash : String
  created_at : Int
deriving DecidableEq, Repr

/-- The admins file: the fixed superadmin record plus the admins list. -/
structure AdminsObj where
  superadmin_id : String
  superadmin_pw_hash : String
  admins : List AdminRec
deriving DecidableEq, Repr

/-- Modelled from the spec: salted bcrypt hashing (`pwd_ctx.hash`, the
passlib library absent from `src/`); the claims never inspect the hash
value, only that one is stored. -/
def pwd_hash (pw : String) : String := "bcrypt$" ++ pw

/-- Outcome of `create_admin`: the new admins file or an `HTTPException`. -/
inductive CreateAdminResult where
  | ok (newState : AdminsObj)
  | err (statusCode : Nat) (detail : String)
deriving DecidableEq, Repr

/-- `create_admin` from `src/main.py` (past its superadmin guard): strip
both fields, reject empty ones with 400, the reserved superadmin id and
existing admin ids with 409, otherwise append the new record. -/
def create_admin (st : AdminsObj) (reqId reqPw : String) (now : Int) : CreateAdminResult :=
  let uid := pyStrip reqId
  let pw := pyStrip reqPw
  if uid = "" ∨ pw = "" then .err 400 "id/pw required"
  else if uid = st.superadmin_id then .err 409 "Cannot overwrite superadmin"
  else if st.admins.any (fun a => a.id = uid) then .err 409 "Admin already exists"
  else .ok { st with admins := st.admins ++ [⟨uid, pwd_hash pw, now⟩] }

/-! ## Token codec lemmas -/

theorem decInt_encInt (n : Int) : decInt (encInt n) = n := by
  simp only [decInt, encInt]
  split <;> split <;> omega

theorem parseStr_encStr (s : String) (t : List Nat) :
    parseStr (encStr s ++ t) = some (s, t) := by
  simp only [encStr, List.cons_append, parseStr]
  rw [if_pos (by simp)]
  have hlen : s.data.length = (s.data.map Char.toNat).length := by simp
  rw [hlen, List.take_left, List.drop_left]
  simp [List.map_map, Function.comp_def, Char.ofNat_toNat]

theorem parseClaims_serializeClaims (c : Claims) :
    parseClaims (serializeClaims c) = some c := by
  simp only [serializeClaims, parseClaims, List.append_assoc, parseStr_encStr,
    Option.bind_eq_bind, Option.some_bind, decInt_encInt]

theorem macSign_inj (secret : String) {m1 m2 : List Nat}
    (h : macSign secret m1 = macSign secret m2) : m1 = m2 := by
  simp only [macSign] at h
  have h2 := List.append_cancel_left h
  injection h2

theorem decode_make_token_ttl (secret uid role : String) (now ttl now2 : Int) :
    decode_token secret now2 (make_token_ttl secret uid role now ttl) =
      if now2 < now + ttl then some ⟨uid, role, now, now + ttl⟩ else none := by
  simp [decode_token, make_token_ttl, parseClaims_serializeClaims]

/-! ## Claims C1, C2, C3: token codec -/

/-- C1: for every user id string and every role in {admin, superadmin},
decoding with the same server secret the token produced by issue —
`_decode_token(_make_token(user_id, role))` — immediately after issuance
succeeds and returns exactly the original pair `(user_id, role)`. -/
theorem C1_issue_verify_roundtrip (secret uid role : String) (now : Int)
    (_hrole : role = "admin" ∨ role = "superadmin") :
    decode_token secret now (make_token secret uid role now) =
      some ⟨uid, role, now, now + JWT_TTL_SEC⟩ := by
  rw [make_token, decode_make_token_ttl,
    if_pos (show now < now + JWT_TTL_SEC by simp only [JWT_TTL_SEC]; omega)]

/-- Witness for C1 at a concrete input. -/
theorem C1_issue_verify_roundtrip_witness :
    decode_token "change-me" 1700000000
        (make_token "change-me" "dldydtjq159" "superadmin" 1700000000) =
      some ⟨"dldydtjq159", "superadmin", 1700000000, 1700000000 + JWT_TTL_SEC⟩ :=
  C1_issue_verify_roundtrip "change-me" "dldydtjq159" "superadmin" 1700000000 (Or.inr rfl)

/-- C2: every single-byte alteration of the payload portion of an issued
token is rejected by verification (`_decode_token` signals invalid), and
the role guard answers 401 for it rather than accepting the claim or
letting the exception reach the API caller. -/
theorem C2_single_byte_tamper_rejected (secret uid role : String) (now now2 : Int)
    (i b : Nat)
    (hi : i < (make_token secret uid role now).payload.length)
    (hb : b ≠ (make_token secret uid role now).payload[i]) :
    decode_token secret now2
        ⟨(make_token secret uid role now).payload.set i b,
         (make_token secret uid role now).sig⟩ = none ∧
    (∀ auth s, get_bearer_token auth = some s →
      tokenOfString s = some ⟨(make_token secret uid role now).payload.set i b,
                              (make_token secret uid role now).sig⟩ →
      ∀ required, require_role required secret now2 auth = .err 401 "Invalid token") := by
  have hmac : macSign secret ((make_token secret uid role now).payload.set i b) ≠
      (make_token secret uid role now).sig := by
    intro heq
    have hsig : (make_token secret uid role now).sig =
        macSign secret (make_token secret uid role now).payload := rfl
    rw [hsig] at heq
    have hset : (make_token secret uid role now).payload.set i b =
        (make_token secret uid role now).payload := macSign_inj secret heq
    have h1 : ((make_token secret uid role now).payload.set i b)[i]? = some b := by
      simp [List.getElem?_set_self, hi]
    rw [hset, List.getElem?_eq_getElem hi] at h1
    exact hb (Option.some.inj h1).symm
  have hdec : decode_token secret now2
      ⟨(make_token secret uid role now).payload.set i b,
       (make_token secret uid role now).sig⟩ = none := by
    unfold decode_token
    exact if_neg hmac
  refine ⟨hdec, ?_⟩
  intro auth s hget htok required
  have hds : decode_token_str secret now2 s = none := by
    unfold decode_token_str
    rw [htok]
    exact hdec
  unfold require_role
  simp only [hget, hds]

/-- Witness for C2 at a concrete input: byte 0 of the payload flipped. -/
theorem C2_single_byte_tamper_rejected_witness :
    decode_token "k" 0 ⟨(make_token "k" "u" "admin" 0).payload.set 0 9,
                        (make_token "k" "u" "admin" 0).sig⟩ = none ∧
    require_role "admin" "k" 0
        (some ("Bearer " ++ stringOfToken ⟨(make_token "k" "u" "admin" 0).payload.set 0 9,
                                           (make_token "k" "u" "admin" 0).sig⟩)) =
      .err 401 "Invalid token" := by
  have h := C2_single_byte_tamper_rejected "k" "u" "admin" 0 0 0 9 (by decide) (by decide)
  exact ⟨h.1,
    h.2 (some ("Bearer " ++ stringOfToken ⟨(make_token "k" "u" "admin" 0).payload.set 0 9,
                                           (make_token "k" "u" "admin" 0).sig⟩))
        (stringOfToken ⟨(make_token "k" "u" "admin" 0).payload.set 0 9,
                        (make_token "k" "u" "admin" 0).sig⟩)
        (by decide) (by decide) "admin"⟩

/-- C3: verification fails whenever `expires_at` is at or before the
current time: a token issued with `ttl <= 0` is rejected (at any time at or
after issuance), and any token whose `exp` claim has elapsed is rejected. -/
theorem C3_expired_token_rejected (secret uid role : String) (now ttl now2 : Int)
    (t : Token) (c : Claims) :
    (ttl ≤ 0 → now ≤ now2 →
      decode_token secret now2 (make_token_ttl secret uid role now ttl) = none) ∧
    (parseClaims t.payload = some c → c.exp ≤ now2 →
      decode_token secret now2 t = none) := by
  constructor
  · intro h1 h2
    rw [decode_make_token_ttl, if_neg (show ¬ now2 < now + ttl by omega)]
  · intro hp he
    unfold decode_token
    split
    · simp only [hp]
      rw [if_neg (show ¬ now2 < c.exp by omega)]
    · rfl

/-- Witness for C3 at a concrete input: a token issued with `ttl = 0`. -/
theorem C3_expired_token_rejected_witness :
    decode_token "k" 5 (make_token_ttl "k" "u" "admin" 5 0) = none ∧
    decode_token "k" 5 (make_token_ttl "k" "u" "admin" 5 0) = none := by
  have h := C3_expired_token_rejected "k" "u" "admin" 5 0 5
    (make_token_ttl "k" "u" "admin" 5 0) ⟨"u", "admin", 5, 5⟩
  exact ⟨h.1 (by omega) (by omega), h.2 (by decide) (by decide)⟩

/-! ## Claim C4: access guard -/

theorem roleSat_admin (r : String) :
    roleSatisfies r "admin" = true ↔ (r = "admin" ∨ r = "superadmin") := by
  have h : roleRank "admin" = 1 := by decide
  unfold roleSatisfies
  rw [h]
  unfold roleRank
  by_cases h1 : r = "superadmin" <;> by_cases h2 : r = "admin" <;> simp [h1, h2]

theorem roleSat_superadmin (r : String) :
    roleSatisfies r "superadmin" = true ↔ r = "superadmin" := by
  have h : roleRank "superadmin" = 2 := by decide
  unfold roleSatisfies
  rw [h]
  unfold roleRank
  by_cases h1 : r = "superadmin" <;> by_cases h2 : r = "admin" <;> simp [h1, h2]

/-- C4: for every request to a role-gated endpoint: a missing or non-Bearer
authorization header, or a token that fails verification, is rejected with
401; a verified token whose claimed role does not satisfy the endpoint's
minimum role (order `admin < superadmin`, satisfying = equal or higher) is
rejected with 403; otherwise the decoded claim is forwarded. -/
theorem C4_role_guard (secret : String) (now : Int) (auth : Option String)
    (required : String) (hreq : required = "admin" ∨ required = "superadmin") :
    (get_bearer_token auth = none →
      require_role required secret now auth = .err 401 "Missing bearer token") ∧
    (∀ s, get_bearer_token auth = some s → decode_token_str secret now s = none →
      require_role required secret now auth = .err 401 "Invalid token") ∧
    (∀ s c, get_bearer_token auth = some s → decode_token_str secret now s = some c →
      roleSatisfies c.role required = false →
      ∃ d, require_role required secret now auth = .err 403 d) ∧
    (∀ s c, get_bearer_token auth = some s → decode_token_str secret now s = some c →
      roleSatisfies c.role required = true →
      require_role required secret now auth = .ok c) := by
  refine ⟨?_, ?_, ?_, ?_⟩
  · intro h
    unfold require_role
    rw [h]
  · intro s h1 h2
    unfold require_role
    simp only [h1, h2]
  · intro s c h1 h2 h3
    unfold require_role
    simp only [h1, h2]
    rcases hreq with rfl | rfl
    · refine ⟨"Admin only", ?_⟩
      rw [if_pos rfl, if_neg ?_]
      intro hor
      rw [(roleSat_admin c.role).mpr hor] at h3
      exact absurd h3 (by simp)
    · refine ⟨"Superadmin only", ?_⟩
      rw [if_neg (by decide), if_pos rfl, if_neg ?_]
      intro hr
      rw [(roleSat_superadmin c.role).mpr hr] at h3
      exact absurd h3 (by simp)
  · intro s c h1 h2 h3
    unfold require_role
    simp only [h1, h2]
    rcases hreq with rfl | rfl
    · rw [if_pos rfl, if_pos ((roleSat_admin c.role).mp h3)]
    · rw [if_neg (by decide), if_pos rfl, if_pos ((roleSat_superadmin c.role).mp h3)]

/-- Witness for C4 at concrete inputs: missing header, insufficient role,
and a successful pass-through of the decoded claim. -/
theorem C4_role_guard_witness :
    require_role "admin" "k" 0 none = .err 401 "Missing bearer token" ∧
    (∃ d, require_role "superadmin" "k" 0
        (some ("Bearer " ++ stringOfToken (make_token "k" "u" "admin" 5))) = .err 403 d) ∧
    require_role "admin" "k" 0
        (some ("Bearer " ++ stringOfToken (make_token "k" "u" "admin" 5))) =
      .ok ⟨"u", "admin", 5, 5 + JWT_TTL_SEC⟩ := by
  refine ⟨(C4_role_guard "k" 0 none "admin" (Or.inl rfl)).1 rfl, ?_, ?_⟩
  · exact (C4_role_guard "k" 0
      (some ("Bearer " ++ stringOfToken (make_token "k" "u" "admin" 5)))
      "superadmin" (Or.inr rfl)).2.2.1
      (stringOfToken (make_token "k" "u" "admin" 5))
      ⟨"u", "admin", 5, 5 + JWT_TTL_SEC⟩ (by decide) (by decide) (by decide)
  · exact (C4_role_guard "k" 0
      (some ("Bearer " ++ stringOfToken (make_token "k" "u" "admin" 5)))
      "admin" (Or.inl rfl)).2.2.2
      (stringOfToken (make_token "k" "u" "admin" 5))
      ⟨"u", "admin", 5, 5 + JWT_TTL_SEC⟩ (by decide) (by decide) (by decide)

/-! ## Claims C9, C10: admin creation -/

theorem create_admin_ok_shape (st : AdminsObj) (reqId reqPw : String) (now : Int)
    (st2 : AdminsObj) (hok : create_admin st reqId reqPw now = .ok st2) :
    st2 = { st with admins :=
        st.admins ++ [⟨pyStrip reqId, pwd_hash (pyStrip reqPw), now⟩] } ∧
    pyStrip reqId ≠ "" ∧ pyStrip reqPw ≠ "" ∧
    pyStrip reqId ≠ st.superadmin_id ∧
    st.admins.any (fun a => a.id = pyStrip reqId) = false := by
  simp only [create_admin] at hok
  split at hok
  · exact absurd hok (by simp)
  · split at hok
    · exact absurd hok (by simp)
    · split at hok
      · exact absurd hok (by simp)
      · rename_i hempty hsup hdup
        injection hok with h
        push_neg at hempty
        exact ⟨h.symm, hempty.1, hempty.2, hsup, by simpa using hdup⟩

theorem create_admin_ok_dup (st : AdminsObj) (id1 id2 pw pw2 : String) (now now2 : Int)
    (st2 : AdminsObj) (hid : pyStrip id1 = pyStrip id2)
    (hok : create_admin st id1 pw now = .ok st2) (hpw2 : pyStrip pw2 ≠ "") :
    create_admin st2 id2 pw2 now2 = .err 409 "Admin already exists" := by
  obtain ⟨hst2, hne, -, hnsup, -⟩ := create_admin_ok_shape st id1 pw now st2 hok
  subst hst2
  simp only [create_admin]
  rw [if_neg (by rw [← hid]; exact fun h => h.elim hne hpw2)]
  rw [if_neg (by rw [← hid]; exact hnsup)]
  rw [if_pos (by simp [← hid])]

/-- C9: admin creation rejects with conflict (409) when the requested id
equals the reserved superadmin id, and when an admin record with that id
already exists; in particular creating the same admin id twice fails with
conflict the second time. -/
theorem C9_admin_creation_conflicts (st : AdminsObj) (reqId pw pw2 : String)
    (now now2 : Int) :
    (pyStrip st.superadmin_id = st.superadmin_id → st.superadmin_id ≠ "" →
      pyStrip pw ≠ "" →
      create_admin st st.superadmin_id pw now = .err 409 "Cannot overwrite superadmin") ∧
    (st.admins.any (fun a => a.id = pyStrip reqId) → pyStrip reqId ≠ "" →
      pyStrip pw ≠ "" → pyStrip reqId ≠ st.superadmin_id →
      create_admin st reqId pw now = .err 409 "Admin already exists") ∧
    (∀ st2, create_admin st reqId pw now = .ok st2 → pyStrip pw2 ≠ "" →
      create_admin st2 reqId pw2 now2 = .err 409 "Admin already exists") := by
  refine ⟨?_, ?_, ?_⟩
  · intro hstrip hne hpw
    simp only [create_admin]
    rw [if_neg (by rw [hstrip]; exact fun h => h.elim hne hpw)]
    rw [if_pos hstrip]
  · intro hdup hne hpw hnsup
    simp only [create_admin]
    rw [if_neg (fun h => h.elim hne hpw), if_neg hnsup, if_pos hdup]
  · intro st2 hok hpw2
    exact create_admin_ok_dup st reqId reqId pw pw2 now now2 st2 rfl hok hpw2

/-- Witness for C9 at concrete inputs: the reserved id, an existing id, and
the same id created twice. -/
theorem C9_admin_creation_conflicts_witness :
    create_admin ⟨"dldydtjq159", "h", []⟩ "dldydtjq159" "pw" 0 =
      .err 409 "Cannot overwrite superadmin" ∧
    create_admin ⟨"dldydtjq159", "h", [⟨"alice", "h2", 0⟩]⟩ "alice" "pw" 1 =
      .err 409 "Admin already exists" ∧
    create_admin ⟨"dldydtjq159", "h", [⟨"alice", pwd_hash "pw", 0⟩]⟩ "alice" "x" 1 =
      .err 409 "Admin already exists" := by
  refine ⟨?_, ?_, ?_⟩
  · exact (C9_admin_creation_conflicts ⟨"dldydtjq159", "h", []⟩ "z" "pw" "x" 0 1).1
      (by decide) (by decide) (by decide)
  · exact (C9_admin_creation_conflicts ⟨"dldydtjq159", "h", [⟨"alice", "h2", 0⟩]⟩
      "alice" "pw" "x" 1 1).2.1 (by decide) (by decide) (by decide) (by decide)
  · exact (C9_admin_creation_conflicts ⟨"dldydtjq159", "h", []⟩ "alice" "pw" "x" 0 1).2.2
      ⟨"dldydtjq159", "h", [⟨"alice", pwd_hash "pw", 0⟩]⟩ (by decide) (by decide)

/-- C10: `create_admin` strips surrounding whitespace from both id and pw
before validation, duplicate-checking and storage: a whitespace-only id or
pw is rejected as a 400 validation error, the stored record carries the
stripped fields, and two requested ids differing only in surrounding
whitespace name the same admin record. -/
theorem C10_whitespace_stripping (st : AdminsObj) (reqId reqPw id1 id2 pw pw2 : String)
    (now now2 : Int) :
    (pyStrip reqId = "" ∨ pyStrip reqPw = "" →
      create_admin st reqId reqPw now = .err 400 "id/pw required") ∧
    (∀ st2, create_admin st reqId reqPw now = .ok st2 →
      st2.admins = st.admins ++ [⟨pyStrip reqId, pwd_hash (pyStrip reqPw), now⟩]) ∧
    (pyStrip id1 = pyStrip id2 → ∀ st2, create_admin st id1 pw now = .ok st2 →
      pyStrip pw2 ≠ "" →
      create_admin st2 id2 pw2 now2 = .err 409 "Admin already exists") := by
  refine ⟨?_, ?_, ?_⟩
  · intro h
    simp only [create_admin]
    rw [if_pos h]
  · intro st2 hok
    obtain ⟨hst2, -, -, -, -⟩ := create_admin_ok_shape st reqId reqPw now st2 hok
    rw [hst2]
  · intro hid st2 hok hpw2
    exact create_admin_ok_dup st id1 id2 pw pw2 now now2 st2 hid hok hpw2

/-- Witness for C10 at concrete inputs: whitespace-only pw, storage of the
stripped id, and `" alice "` colliding with `"alice"`. -/
theorem C10_whitespace_stripping_witness :
    create_admin ⟨"dldydtjq159", "h", []⟩ "alice" "   " 0 = .err 400 "id/pw required" ∧
    create_admin ⟨"dldydtjq159", "h", []⟩ " alice " "pw" 0 =
      .ok ⟨"dldydtjq159", "h", [⟨"alice", pwd_hash "pw", 0⟩]⟩ ∧
    create_admin ⟨"dldydtjq159", "h", [⟨"alice", pwd_hash "pw", 0⟩]⟩ "alice" "x" 1 =
      .err 409 "Admin already exists" := by
  refine ⟨?_, ?_, ?_⟩
  · exact (C10_whitespace_stripping ⟨"dldydtjq159", "h", []⟩ "alice" "   " "a" "b" "c" "d"
      0 1).1 (by decide)
  · decide
  · exact (C10_whitespace_stripping ⟨"dldydtjq159", "h", []⟩ "z" "z" " alice " "alice"
      "pw" "x" 0 1).2.2 (by decide)
      ⟨"dldydtjq159", "h", [⟨"alice", pwd_hash "pw", 0⟩]⟩ (by decide) (by decide)

/-! ## Association-list (Python dict) lemmas -/

theorem alGet_alSet_self {κ : Type} [DecidableEq κ] (kvs : List (κ × JVal)) (k : κ)
    (v : JVal) : alGet (alSet kvs k v) k = some v := by
  induction kvs with
  | nil => simp [alSet, alGet]
  | cons p rest ih =>
    by_cases h : p.1 = k
    · simp [alSet, alGet, h]
    · simp [alSet, alGet, h, ih]

theorem alGet_alSet_other {κ : Type} [DecidableEq κ] (kvs : List (κ × JVal)) (k k2 : κ)
    (v : JVal) (h : k2 ≠ k) : alGet (alSet kvs k v) k2 = alGet kvs k2 := by
  induction kvs with
  | nil => simp [alSet, alGet, Ne.symm h]
  | cons p rest ih =>
    by_cases hp : p.1 = k
    · simp [alSet, alGet, hp, Ne.symm h]
    · simp only [alSet, if_neg hp]
      by_cases hq : p.1 = k2 <;> simp [alGet, hq, ih]

theorem alGet_append {κ : Type} [DecidableEq κ] (a b : List (κ × JVal)) (k : κ) :
    alGet (a ++ b) k = match alGet a k with | some v => some v | none => alGet b k := by
  induction a with
  | nil => simp [alGet]
  | cons p rest ih => by_cases h : p.1 = k <;> simp [alGet, h, ih]

theorem alSet_absent {κ : Type} [DecidableEq κ] (kvs : List (κ × JVal)) (k : κ) (v : JVal)
    (h : alGet kvs k = none) : alSet kvs k v = kvs ++ [(k, v)] := by
  induction kvs with
  | nil => simp [alSet]
  | cons p rest ih =>
    by_cases hp : p.1 = k
    · simp [alGet, hp] at h
    · simp only [alGet, if_neg hp] at h
      simp [alSet, hp, ih h]

theorem alGet_eq_none_iff {κ : Type} [DecidableEq κ] (kvs : List (κ × JVal)) (k : κ) :
    alGet kvs k = none ↔ ∀ p ∈ kvs, p.1 ≠ k := by
  induction kvs with
  | nil => simp [alGet]
  | cons p rest ih => by_cases hp : p.1 = k <;> simp [alGet, hp, ih]

theorem alSet_keys_sub {κ : Type} [DecidableEq κ] (kvs : List (κ × JVal)) (k : κ)
    (v : JVal) : ∀ p ∈ alSet kvs k v, p.1 = k ∨ p ∈ kvs := by
  induction kvs with
  | nil => simp [alSet]
  | cons q rest ih =>
    intro p hp
    by_cases hq : q.1 = k
    · simp only [alSet, if_pos hq] at hp
      rcases List.mem_cons.mp hp with rfl | hp
      · exact Or.inl rfl
      · exact Or.inr (List.mem_cons_of_mem _ hp)
    · simp only [alSet, if_neg hq] at hp
      rcases List.mem_cons.mp hp with rfl | hp
      · exact Or.inr (List.mem_cons_self _ _)
      · rcases ih p hp with h1 | h2
        · exact Or.inl h1
        · exact Or.inr (List.mem_cons_of_mem _ h2)

theorem alSet_pairwise {κ : Type} [DecidableEq κ] (kvs : List (κ × JVal)) (k : κ)
    (v : JVal) (h : kvs.Pairwise (fun a b => a.1 ≠ b.1)) :
    (alSet kvs k v).Pairwise (fun a b => a.1 ≠ b.1) := by
  induction kvs with
  | nil => simp [alSet]
  | cons q rest ih =>
    rcases List.pairwise_cons.mp h with ⟨hq, hrest⟩
    by_cases hp : q.1 = k
    · simp only [alSet, if_pos hp]
      refine List.pairwise_cons.mpr ⟨?_, hrest⟩
      intro b hb
      have := hq b hb
      rw [← hp]
      exact this
    · simp only [alSet, if_neg hp]
      refine List.pairwise_cons.mpr ⟨?_, ih hrest⟩
      intro b hb
      rcases alSet_keys_sub rest k v b hb with h1 | h2
      · rw [h1]; exact hp
      · exact hq b h2

theorem alFold_cons {κ : Type} [DecidableEq κ] (acc : List (κ × JVal)) (p : κ × JVal)
    (l : List (κ × JVal)) : alFold acc (p :: l) = alFold (alSet acc p.1 p.2) l := rfl

theorem alFold_append_absent {κ : Type} [DecidableEq κ] (l acc : List (κ × JVal))
    (hpw : l.Pairwise (fun a b => a.1 ≠ b.1))
    (habs : ∀ p ∈ l, alGet acc p.1 = none) :
    alFold acc l = acc ++ l := by
  induction l generalizing acc with
  | nil => simp [alFold]
  | cons p rest ih =>
    rcases List.pairwise_cons.mp hpw with ⟨hp, hrest⟩
    rw [alFold_cons, alSet_absent acc p.1 p.2 (habs p (List.mem_cons_self _ _))]
    rw [ih (acc ++ [(p.1, p.2)]) hrest ?_]
    · simp
    · intro q hq
      rw [alGet_append, habs q (List.mem_cons_of_mem _ hq)]
      simp [alGet, hp q hq]

theorem alDict_distinct {κ : Type} [DecidableEq κ] (l : List (κ × JVal))
    (hpw : l.Pairwise (fun a b => a.1 ≠ b.1)) : alDict l = l := by
  rw [alDict, alFold_append_absent l [] hpw (by simp [alGet])]
  simp

theorem alFold_pairwise {κ : Type} [DecidableEq κ] (l acc : List (κ × JVal))
    (h : acc.Pairwise (fun a b => a.1 ≠ b.1)) :
    (alFold acc l).Pairwise (fun a b => a.1 ≠ b.1) := by
  induction l generalizing acc with
  | nil => simpa [alFold] using h
  | cons p rest ih => rw [alFold_cons]; exact ih _ (alSet_pairwise acc p.1 p.2 h)

theorem alDict_pairwise {κ : Type} [DecidableEq κ] (l : List (κ × JVal)) :
    (alDict l).Pairwise (fun a b => a.1 ≠ b.1) :=
  alFold_pairwise l [] (by simp)

/-! ## Normalization lemmas and claim C7 -/

/-- Does `kvs[k]` exist with a value passing the type check? -/
def checkKey (check : JVal → Bool) (kvs : List (String × JVal)) (k : String) : Bool :=
  match alGet kvs k with
  | some v => check v
  | none => false

/-- A store document carrying all four required keys with the required
container types: `inventory`/`recipes` dicts, `memo` a str, `ledger` a list. -/
def isNormalizedDoc (kvs : List (String × JVal)) : Bool :=
  checkKey isDict kvs "inventory" && checkKey isDict kvs "recipes" &&
  checkKey isStr kvs "memo" && checkKey isArr kvs "ledger"

theorem checkKey_fixKey_self (check : JVal → Bool) (dflt : JVal)
    (kvs : List (String × JVal)) (k : String) (hd : check dflt = true) :
    checkKey check (fixKey check dflt kvs k) k = true := by
  unfold fixKey
  cases h : alGet kvs k with
  | none => simp [checkKey, alGet_alSet_self, hd]
  | some v =>
    by_cases hc : check v
    · simp [hc, checkKey, h]
    · simp [hc, checkKey, alGet_alSet_self, hd]

theorem alGet_fixKey_other (check : JVal → Bool) (dflt : JVal)
    (kvs : List (String × JVal)) (k k2 : String) (h : k2 ≠ k) :
    alGet (fixKey check dflt kvs k) k2 = alGet kvs k2 := by
  unfold fixKey
  cases halGet : alGet kvs k with
  | none => rw [alGet_alSet_other _ _ _ _ h]
  | some v =>
    by_cases hc : check v
    · simp [hc]
    · simp [hc, alGet_alSet_other _ _ _ _ h]

theorem checkKey_fixKey_other (c2 check : JVal → Bool) (dflt : JVal)
    (kvs : List (String × JVal)) (k k2 : String) (h : k2 ≠ k) :
    checkKey c2 (fixKey check dflt kvs k) k2 = checkKey c2 kvs k2 := by
  unfold checkKey
  rw [alGet_fixKey_other _ _ _ _ _ h]

theorem normalize_store_normalized (st : JVal) :
    isNormalizedDoc (normalize_store st) = true := by
  simp only [normalize_store, isNormalizedDoc, Bool.and_eq_true]
  refine ⟨⟨⟨?_, ?_⟩, ?_⟩, ?_⟩
  · rw [checkKey_fixKey_other _ _ _ _ _ _ (by decide),
      checkKey_fixKey_other _ _ _ _ _ _ (by decide),
      checkKey_fixKey_other _ _ _ _ _ _ (by decide)]
    exact checkKey_fixKey_self _ _ _ _ (by decide)
  · rw [checkKey_fixKey_other _ _ _ _ _ _ (by decide),
      checkKey_fixKey_other _ _ _ _ _ _ (by decide)]
    exact checkKey_fixKey_self _ _ _ _ (by decide)
  · rw [checkKey_fixKey_other _ _ _ _ _ _ (by decide)]
    exact checkKey_fixKey_self _ _ _ _ (by decide)
  · exact checkKey_fixKey_self _ _ _ _ (by decide)

theorem checkKey_isDict_exists (kvs : List (String × JVal)) (k : String)
    (h : checkKey isDict kvs k = true) : ∃ m, alGet kvs k = some (.obj m) := by
  unfold checkKey at h
  cases hv : alGet kvs k with
  | none => rw [hv] at h; exact absurd h (by simp)
  | some v =>
    rw [hv] at h
    cases v <;> simp [isDict] at h
    exact ⟨_, rfl⟩

theorem checkKey_isStr_exists (kvs : List (String × JVal)) (k : String)
    (h : checkKey isStr kvs k = true) : ∃ m, alGet kvs k = some (.str m) := by
  unfold checkKey at h
  cases hv : alGet kvs k with
  | none => rw [hv] at h; exact absurd h (by simp)
  | some v =>
    rw [hv] at h
    cases v <;> simp [isStr] at h
    exact ⟨_, rfl⟩

theorem checkKey_isArr_exists (kvs : List (String × JVal)) (k : String)
    (h : checkKey isArr kvs k = true) : ∃ m, alGet kvs k = some (.arr m) := by
  unfold checkKey at h
  cases hv : alGet kvs k with
  | none => rw [hv] at h; exact absurd h (by simp)
  | some v =>
    rw [hv] at h
    cases v <;> simp [isArr] at h
    exact ⟨_, rfl⟩

/-- C7: for every input value — dict or not, fields null or mistyped, extra
unknown keys present — `normalize_store` returns a document containing all
four required keys, with `inventory` and `recipes` mappings, `memo` a
string and `ledger` a sequence. -/
theorem C7_normalize_store_total (st : JVal) :
    (∃ m, alGet (normalize_store st) "inventory" = some (.obj m)) ∧
    (∃ m, alGet (normalize_store st) "recipes" = some (.obj m)) ∧
    (∃ m, alGet (normalize_store st) "memo" = some (.str m)) ∧
    (∃ m, alGet (normalize_store st) "ledger" = some (.arr m)) := by
  have h := normalize_store_normalized st
  simp only [isNormalizedDoc, Bool.and_eq_true] at h
  exact ⟨checkKey_isDict_exists _ _ h.1.1.1, checkKey_isDict_exists _ _ h.1.1.2,
    checkKey_isStr_exists _ _ h.1.2, checkKey_isArr_exists _ _ h.2⟩

/-! ## Document shape and idempotence of `normalize_store` -/

/-- The four required keys of a store document. -/
def fixedKeys : List String := ["inventory", "recipes", "memo", "ledger"]

/-- The shape of every document passing through `normalize_store`: the four
required keys first, in default order, then extra keys, pairwise distinct
and disjoint from the required ones. -/
def DocShape (kvs : List (String × JVal)) : Prop :=
  ∃ vi vr vm vl extras,
    kvs = ("inventory", vi) :: ("recipes", vr) :: ("memo", vm) :: ("ledger", vl) :: extras ∧
    (∀ p ∈ extras, p.1 ∉ fixedKeys) ∧
    extras.Pairwise (fun a b => a.1 ≠ b.1)

theorem DocShape_default : DocShape default_store_data :=
  ⟨invDefault, recipesDefault, .str "", .arr [], [], rfl, by simp, by simp⟩

theorem DocShape_alSet (kvs : List (String × JVal)) (k : String) (v : JVal)
    (h : DocShape kvs) : DocShape (alSet kvs k v) := by
  obtain ⟨vi, vr, vm, vl, extras, rfl, hex, hpw⟩ := h
  by_cases h1 : k = "inventory"
  · subst h1; exact ⟨v, vr, vm, vl, extras, by simp [alSet], hex, hpw⟩
  by_cases h2 : k = "recipes"
  · subst h2; exact ⟨vi, v, vm, vl, extras, by simp [alSet], hex, hpw⟩
  by_cases h3 : k = "memo"
  · subst h3; exact ⟨vi, vr, v, vl, extras, by simp [alSet], hex, hpw⟩
  by_cases h4 : k = "ledger"
  · subst h4; exact ⟨vi, vr, vm, v, extras, by simp [alSet], hex, hpw⟩
  have hi : ("inventory" : String) ≠ k := fun hh => h1 hh.symm
  have hr : ("recipes" : String) ≠ k := fun hh => h2 hh.symm
  have hm : ("memo" : String) ≠ k := fun hh => h3 hh.symm
  have hl : ("ledger" : String) ≠ k := fun hh => h4 hh.symm
  refine ⟨vi, vr, vm, vl, alSet extras k v, by simp [alSet, hi, hr, hm, hl], ?_, ?_⟩
  · intro p hp
    rcases alSet_keys_sub extras k v p hp with hk | hp2
    · rw [hk]; simp [fixedKeys, h1, h2, h3, h4]
    · exact hex p hp2
  · exact alSet_pairwise extras k v hpw

theorem DocShape_alFold (l kvs : List (String × JVal)) (h : DocShape kvs) :
    DocShape (alFold kvs l) := by
  induction l generalizing kvs with
  | nil => exact h
  | cons p rest ih => rw [alFold_cons]; exact ih _ (DocShape_alSet _ _ _ h)

theorem DocShape_fixKey (check : JVal → Bool) (dflt : JVal)
    (kvs : List (String × JVal)) (k : String) (h : DocShape kvs) :
    DocShape (fixKey check dflt kvs k) := by
  unfold fixKey
  cases hv : alGet kvs k with
  | none => exact DocShape_alSet _ _ _ h
  | some v =>
    show DocShape (if check v = true then kvs else alSet kvs k dflt)
    by_cases hc : check v
    · rw [if_pos hc]; exact h
    · rw [if_neg hc]; exact DocShape_alSet _ _ _ h

theorem normalize_store_shape (st : JVal) : DocShape (normalize_store st) := by
  simp only [normalize_store]
  apply DocShape_fixKey
  apply DocShape_fixKey
  apply DocShape_fixKey
  apply DocShape_fixKey
  cases st <;> first
    | exact DocShape_alFold _ _ DocShape_default
    | exact DocShape_default

theorem fixKey_of_check (check : JVal → Bool) (dflt : JVal)
    (kvs : List (String × JVal)) (k : String) (h : checkKey check kvs k = true) :
    fixKey check dflt kvs k = kvs := by
  unfold checkKey at h
  unfold fixKey
  cases hv : alGet kvs k with
  | none => rw [hv] at h; exact absurd h (by simp)
  | some v =>
    rw [hv] at h
    have hc : check v = true := h
    simp [hc]

theorem dictUpdate_default_shaped (vi vr vm vl : JVal) (extras : List (String × JVal))
    (hex : ∀ p ∈ extras, p.1 ∉ fixedKeys)
    (hpw : extras.Pairwise (fun a b => a.1 ≠ b.1)) :
    dictUpdate default_store_data
      (("inventory", vi) :: ("recipes", vr) :: ("memo", vm) :: ("ledger", vl) :: extras) =
      ("inventory", vi) :: ("recipes", vr) :: ("memo", vm) :: ("ledger", vl) :: extras := by
  unfold dictUpdate
  rw [alFold_cons, alFold_cons, alFold_cons, alFold_cons]
  have hX : alSet (alSet (alSet (alSet default_store_data "inventory" vi)
      "recipes" vr) "memo" vm) "ledger" vl =
      [("inventory", vi), ("recipes", vr), ("memo", vm), ("ledger", vl)] := by
    simp [default_store_data, alSet]
  rw [hX]
  have habs : ∀ p ∈ extras,
      alGet [("inventory", vi), ("recipes", vr), ("memo", vm), ("ledger", vl)] p.1 = none := by
    intro p hp
    have h := hex p hp
    simp only [fixedKeys, List.mem_cons, List.not_mem_nil, or_false, not_or] at h
    simp [alGet, Ne.symm h.1, Ne.symm h.2.1, Ne.symm h.2.2.1, Ne.symm h.2.2.2]
  rw [alFold_append_absent extras _ hpw habs]
  simp

theorem normalize_store_of_normalized (d : List (String × JVal)) (hs : DocShape d)
    (hn : isNormalizedDoc d = true) : normalize_store (.obj d) = d := by
  obtain ⟨vi, vr, vm, vl, extras, rfl, hex, hpw⟩ := hs
  simp only [isNormalizedDoc, Bool.and_eq_true] at hn
  simp only [normalize_store]
  rw [dictUpdate_default_shaped vi vr vm vl extras hex hpw]
  rw [fixKey_of_check _ _ _ _ hn.1.1.1, fixKey_of_check _ _ _ _ hn.1.1.2,
    fixKey_of_check _ _ _ _ hn.1.2, fixKey_of_check _ _ _ _ hn.2]

theorem normalize_store_idem (st : JVal) :
    normalize_store (.obj (normalize_store st)) = normalize_store st :=
  normalize_store_of_normalized _ (normalize_store_shape st) (normalize_store_normalized st)

/-! ## Catalog invariants: the `normalize_all` loop -/

/-- The dict `b` holds a normalized store document at key `s`. -/
def NormalizedAt (b : List (JVal × JVal)) (s : JVal) : Prop :=
  ∃ kvs, alGet b s = some (.obj kvs) ∧ isNormalizedDoc kvs = true

theorem normStep_self (b : List (JVal × JVal)) (s : JVal) :
    NormalizedAt (normStep b s) s := by
  unfold normStep
  by_cases hpres : (alGet b s).isSome
  · rw [if_pos hpres]
    exact ⟨_, alGet_alSet_self _ _ _, normalize_store_normalized _⟩
  · rw [if_neg hpres]
    exact ⟨_, alGet_alSet_self _ _ _, normalize_store_normalized _⟩

theorem normStep_preserves (b : List (JVal × JVal)) (s s0 : JVal)
    (h : NormalizedAt b s0) : NormalizedAt (normStep b s) s0 := by
  by_cases heq : s0 = s
  · subst heq; exact normStep_self b s0
  · obtain ⟨kvs, hget, hnorm⟩ := h
    unfold normStep
    refine ⟨kvs, ?_, hnorm⟩
    by_cases hpres : (alGet b s).isSome
    · rw [if_pos hpres, alGet_alSet_other _ _ _ _ heq]; exact hget
    · rw [if_neg hpres, alGet_alSet_other _ _ _ _ heq, alGet_append, hget]

theorem normLoop_meta (l : List JVal) (c c2 : Catalog)
    (h : normLoop l c = .ok c2) : c2.stores = c.stores ∧ c2.lastSync = c.lastSync := by
  induction l generalizing c with
  | nil =>
    simp only [normLoop] at h
    injection h with h
    rw [← h]
    exact ⟨rfl, rfl⟩
  | cons s rest ih =>
    unfold normLoop at h
    by_cases hs : s.hashable
    · rw [if_pos hs] at h
      exact ih { c with byStore := normStep c.byStore s } h
    · rw [if_neg hs] at h
      exact absurd h (by simp)

theorem normLoop_normalized (l : List JVal) (c c2 : Catalog)
    (h : normLoop l c = .ok c2) :
    (∀ s, NormalizedAt c.byStore s → NormalizedAt c2.byStore s) ∧
    (∀ s ∈ l, NormalizedAt c2.byStore s) := by
  induction l generalizing c with
  | nil =>
    simp only [normLoop] at h
    injection h with h
    subst h
    exact ⟨fun s hs => hs, by simp⟩
  | cons s rest ih =>
    unfold normLoop at h
    by_cases hs : s.hashable
    · rw [if_pos hs] at h
      obtain ⟨hpres, hall⟩ := ih _ h
      refine ⟨?_, ?_⟩
      · intro s0 h0
        exact hpres s0 (normStep_preserves c.byStore s s0 h0)
      · intro s0 h0
        rcases List.mem_cons.mp h0 with rfl | h0
        · exact hpres s0 (normStep_self c.byStore s0)
        · exact hall s0 h0
    · rw [if_neg hs] at h
      exact absurd h (by simp)

/-! ## Claims C5 and C6: catalog invariants and total reads -/

deriving instance DecidableEq for Except

theorem normalize_all_normalized (data : JVal) (c : Catalog)
    (h : normalize_all data = .ok c) : ∀ s ∈ c.stores, NormalizedAt c.byStore s := by
  unfold normalize_all at h
  intro s hs
  rw [(normLoop_meta _ _ _ h).1] at hs
  exact (normLoop_normalized _ _ _ h).2 s hs

/-- C5 counterexample: the claim that `stores` lists each name exactly once
fails — a persisted (or `POST /save`-submitted) stores list with a
duplicate is passed through by `normalize_all`, so `GET /data` returns it
and `POST /save` persists it. -/
theorem C5_counterexample :
    ∃ c, normalize_all (.obj [("stores", .arr [.str "A", .str "A"])]) = .ok c ∧
      ¬ c.stores.Nodup := by
  refine ⟨⟨[.str "A", .str "A"], [(.str "A", .obj default_store_data)], ""⟩, by decide, by decide⟩

/-- C5 (amended): in every catalog `normalize_all` returns (hence in every
catalog `GET /data` returns or `POST /save` persists) and in every catalog
`save_store` persists, each name in `stores` has a corresponding,
normalized entry in `byStore`; uniqueness of `stores` is not enforced. -/
theorem C5_stores_have_normalized_entries (data : JVal) (c : Catalog)
    (file : Option JVal) (name : String) (doc : JVal) (nowStr : String) (c2 : Catalog) :
    (normalize_all data = .ok c → ∀ s ∈ c.stores, NormalizedAt c.byStore s) ∧
    (save_store file name doc nowStr = .ok c2 → ∀ s ∈ c2.stores, NormalizedAt c2.byStore s) := by
  refine ⟨normalize_all_normalized data c, ?_⟩
  intro h
  unfold save_store at h
  cases hra : read_all file with
  | error e => rw [hra] at h; exact absurd h (by simp)
  | ok dataC =>
    rw [hra] at h
    injection h with h
    subst h
    intro s hs
    by_cases heq : s = .str name
    · subst heq
      exact ⟨_, alGet_alSet_self _ _ _, normalize_store_normalized _⟩
    · have hs' : s ∈ dataC.stores := by
        by_cases hmem : (.str name : JVal) ∈ dataC.stores
        · simpa [hmem] using hs
        · simp only [if_neg hmem] at hs
          rcases List.mem_append.mp hs with h1 | h1
          · exact h1
          · simp at h1
            exact absurd h1 heq
      obtain ⟨kvs, hget, hnorm⟩ :=
        normalize_all_normalized _ dataC hra s hs'
      exact ⟨kvs, by rw [alGet_alSet_other _ _ _ _ heq]; exact hget, hnorm⟩

/-- Witness for C5 (amended) at a concrete input: the default catalog read
from an empty data file has a normalized entry for its first store, and so
does the catalog persisted by a concrete `save_store`. -/
theorem C5_stores_have_normalized_entries_witness :
    NormalizedAt [((.str "김경영 요리 연구소" : JVal), (.obj default_store_data : JVal)),
                  ((.str "청년회관" : JVal), (.obj default_store_data : JVal))]
      (.str "김경영 요리 연구소") := by
  have h := (C5_stores_have_normalized_entries (.obj [])
    ⟨[.str "김경영 요리 연구소", .str "청년회관"],
     [(.str "김경영 요리 연구소", .obj default_store_data),
      (.str "청년회관", .obj default_store_data)], ""⟩
    none "z" .null "t"
    ⟨[.str "김경영 요리 연구소", .str "청년회관"],
     [(.str "김경영 요리 연구소", .obj default_store_data),
      (.str "청년회관", .obj default_store_data)], ""⟩).1 (by decide)
  exact h (.str "김경영 요리 연구소") (by decide)

/-- C6 (code bug): reading the catalog is not total — a persisted JSON
value whose `stores` list contains a list (or object) makes the
`normalize_all` loop use it as a dict key, raising
`TypeError: unhashable type` out of `GET /data` instead of degrading to
defaults. -/
theorem C6_read_all_raises_on_unhashable :
    read_all (some (.obj [("stores", .arr [.arr []])])) =
      .error "TypeError: unhashable type" := by decide

/-! ## Further loop lemmas for the persistence round trip -/

theorem normStep_keys_sub (b : List (JVal × JVal)) (s : JVal) :
    ∀ p ∈ normStep b s, p.1 = s ∨ ∃ q ∈ b, p.1 = q.1 := by
  intro p hp
  unfold normStep at hp
  by_cases hpres : (alGet b s).isSome
  · rw [if_pos hpres] at hp
    rcases alSet_keys_sub _ _ _ p hp with h1 | h2
    · exact Or.inl h1
    · exact Or.inr ⟨p, h2, rfl⟩
  · rw [if_neg hpres] at hp
    rcases alSet_keys_sub _ _ _ p hp with h1 | h2
    · exact Or.inl h1
    · rcases List.mem_append.mp h2 with h3 | h3
      · exact Or.inr ⟨p, h3, rfl⟩
      · simp at h3
        exact Or.inl (by rw [h3])

theorem normStep_pairwise (b : List (JVal × JVal)) (s : JVal)
    (h : b.Pairwise (fun a b => a.1 ≠ b.1)) :
    (normStep b s).Pairwise (fun a b => a.1 ≠ b.1) := by
  unfold normStep
  by_cases hpres : (alGet b s).isSome
  · rw [if_pos hpres]
    exact alSet_pairwise _ _ _ h
  · rw [if_neg hpres]
    apply alSet_pairwise
    rw [List.pairwise_append]
    refine ⟨h, by simp, ?_⟩
    intro a ha b2 hb2
    simp at hb2
    rw [hb2]
    rw [Option.not_isSome_iff_eq_none] at hpres
    exact (alGet_eq_none_iff _ _).mp hpres a ha

theorem normStep_get_other (b : List (JVal × JVal)) (s s0 : JVal) (h : s0 ≠ s) :
    alGet (normStep b s) s0 = alGet b s0 := by
  unfold normStep
  by_cases hpres : (alGet b s).isSome
  · rw [if_pos hpres, alGet_alSet_other _ _ _ _ h]
  · rw [if_neg hpres, alGet_alSet_other _ _ _ _ h, alGet_append]
    cases hg : alGet b s0 with
    | some v => rfl
    | none =>
      have hss : s ≠ s0 := fun hh => h hh.symm
      simp [alGet, hss]

theorem normLoop_ok (l : List JVal) (hl : ∀ s ∈ l, s.hashable = true) :
    ∀ c, ∃ c2, normLoop l c = .ok c2 := by
  induction l with
  | nil => intro c; exact ⟨c, rfl⟩
  | cons s rest ih =>
    intro c
    obtain ⟨c2, h⟩ := ih (fun s2 hs2 => hl s2 (List.mem_cons_of_mem _ hs2))
      { c with byStore := normStep c.byStore s }
    refine ⟨c2, ?_⟩
    unfold normLoop
    rw [if_pos (hl s (List.mem_cons_self _ _)), h]

theorem normLoop_byStore_inv (P : JVal → Prop) (l : List JVal) (c c2 : Catalog)
    (h : normLoop l c = .ok c2) (hb : ∀ p ∈ c.byStore, P p.1) (hl : ∀ s ∈ l, P s) :
    ∀ p ∈ c2.byStore, P p.1 := by
  induction l generalizing c with
  | nil =>
    simp only [normLoop] at h
    injection h with h
    subst h
    exact hb
  | cons s rest ih =>
    unfold normLoop at h
    by_cases hs : s.hashable
    · rw [if_pos hs] at h
      refine ih { c with byStore := normStep c.byStore s } h ?_
        (fun s2 hs2 => hl s2 (List.mem_cons_of_mem _ hs2))
      intro p hp
      rcases normStep_keys_sub c.byStore s p hp with h1 | ⟨q, hq, h2⟩
      · rw [h1]; exact hl s (List.mem_cons_self _ _)
      · rw [h2]; exact hb q hq
    · rw [if_neg hs] at h
      exact absurd h (by simp)

theorem normLoop_pairwise (l : List JVal) (c c2 : Catalog)
    (h : normLoop l c = .ok c2)
    (hb : c.byStore.Pairwise (fun a b => a.1 ≠ b.1)) :
    c2.byStore.Pairwise (fun a b => a.1 ≠ b.1) := by
  induction l generalizing c with
  | nil =>
    simp only [normLoop] at h
    injection h with h
    subst h
    exact hb
  | cons s rest ih =>
    unfold normLoop at h
    by_cases hs : s.hashable
    · rw [if_pos hs] at h
      exact ih { c with byStore := normStep c.byStore s } h (normStep_pairwise _ _ hb)
    · rw [if_neg hs] at h
      exact absurd h (by simp)

theorem normLoop_get (l : List JVal) (c c2 : Catalog) (h : normLoop l c = .ok c2)
    (s0 : JVal) (kvs0 : List (String × JVal))
    (hget : alGet c.byStore s0 = some (.obj kvs0))
    (hfix : normalize_store (.obj kvs0) = kvs0) :
    alGet c2.byStore s0 = some (.obj kvs0) := by
  induction l generalizing c with
  | nil =>
    simp only [normLoop] at h
    injection h with h
    subst h
    exact hget
  | cons s rest ih =>
    unfold normLoop at h
    by_cases hs : s.hashable
    · rw [if_pos hs] at h
      refine ih { c with byStore := normStep c.byStore s } h ?_
      by_cases heq : s0 = s
      · subst heq
        show alGet (normStep c.byStore s0) s0 = some (.obj kvs0)
        unfold normStep
        rw [if_pos (by rw [hget]; rfl), hget]
        show alGet (alSet c.byStore s0 (.obj (normalize_store (.obj kvs0)))) s0 =
          some (.obj kvs0)
        rw [hfix, alGet_alSet_self]
      · show alGet (normStep c.byStore s) s0 = some (.obj kvs0)
        rw [normStep_get_other _ _ _ heq]
        exact hget
    · rw [if_neg hs] at h
      exact absurd h (by simp)

/-! ## Serialization lemmas for the persistence round trip -/

theorem alFold_keys_sub {κ : Type} [DecidableEq κ] (l acc : List (κ × JVal)) :
    ∀ p ∈ alFold acc l, p ∈ acc ∨ ∃ q ∈ l, p.1 = q.1 := by
  induction l generalizing acc with
  | nil => intro p hp; exact Or.inl hp
  | cons q rest ih =>
    intro p hp
    rw [alFold_cons] at hp
    rcases ih (alSet acc q.1 q.2) p hp with h1 | ⟨r, hr, h2⟩
    · rcases alSet_keys_sub acc q.1 q.2 p h1 with h2 | h3
      · exact Or.inr ⟨q, List.mem_cons_self _ _, h2⟩
      · exact Or.inl h3
    · exact Or.inr ⟨r, List.mem_cons_of_mem _ hr, h2⟩

/-- All keys of the dict are strings (the state `json.dump` round-trips
losslessly). -/
def StrKeys (b : List (JVal × JVal)) : Prop := ∀ p ∈ b, ∃ s, p.1 = JVal.str s

/-- Strip the `JVal.str` wrapper off every key (skipping non-string keys,
which `StrKeys` rules out). -/
def unwrapKeys : List (JVal × JVal) → List (String × JVal)
  | [] => []
  | (.str s, v) :: rest => (s, v) :: unwrapKeys rest
  | _ :: rest => unwrapKeys rest

theorem keysToStrings_ok (b : List (JVal × JVal)) (h : StrKeys b) :
    keysToStrings b = .ok (unwrapKeys b) := by
  induction b with
  | nil => rfl
  | cons p rest ih =>
    obtain ⟨k, v⟩ := p
    obtain ⟨s, hs⟩ := h (k, v) (List.mem_cons_self _ _)
    simp only at hs
    subst hs
    have ih2 := ih (fun q hq => h q (List.mem_cons_of_mem _ hq))
    simp [keysToStrings, keyToString, ih2, unwrapKeys]

theorem alGet_unwrapKeys (b : List (JVal × JVal)) (h : StrKeys b) (s0 : String) :
    alGet (unwrapKeys b) s0 = alGet b (.str s0) := by
  induction b with
  | nil => rfl
  | cons p rest ih =>
    obtain ⟨k, v⟩ := p
    obtain ⟨s, hs⟩ := h (k, v) (List.mem_cons_self _ _)
    simp only at hs
    subst hs
    have ih2 := ih (fun q hq => h q (List.mem_cons_of_mem _ hq))
    by_cases he : s = s0
    · subst he; simp [unwrapKeys, alGet]
    · simp [unwrapKeys, alGet, he, ih2]

theorem unwrapKeys_mem (b : List (JVal × JVal)) :
    ∀ q ∈ unwrapKeys b, ((.str q.1 : JVal), q.2) ∈ b := by
  induction b with
  | nil => simp [unwrapKeys]
  | cons p rest ih =>
    intro q hq
    obtain ⟨k, v⟩ := p
    cases k with
    | str s =>
      rcases List.mem_cons.mp hq with rfl | hq2
      · exact List.mem_cons_self _ _
      · exact List.mem_cons_of_mem _ (ih q hq2)
    | null => exact List.mem_cons_of_mem _ (ih q hq)
    | bool b2 => exact List.mem_cons_of_mem _ (ih q hq)
    | num n => exact List.mem_cons_of_mem _ (ih q hq)
    | arr xs => exact List.mem_cons_of_mem _ (ih q hq)
    | obj kvs2 => exact List.mem_cons_of_mem _ (ih q hq)

theorem unwrapKeys_pairwise (b : List (JVal × JVal))
    (hpw : b.Pairwise (fun a b => a.1 ≠ b.1)) :
    (unwrapKeys b).Pairwise (fun a b => a.1 ≠ b.1) := by
  induction b with
  | nil => simp [unwrapKeys]
  | cons p rest ih =>
    rcases List.pairwise_cons.mp hpw with ⟨hp, hrest⟩
    obtain ⟨k, v⟩ := p
    cases k with
    | str s =>
      refine List.pairwise_cons.mpr ⟨?_, ih hrest⟩
      intro q hq
      have hmem := unwrapKeys_mem rest q hq
      have h2 := hp _ hmem
      intro hc
      exact h2 (congrArg JVal.str hc)
    | null => exact ih hrest
    | bool b2 => exact ih hrest
    | num n => exact ih hrest
    | arr xs => exact ih hrest
    | obj kvs2 => exact ih hrest

theorem alGet_map_str (W : List (String × JVal)) (f : JVal → JVal) (s0 : String) :
    alGet (W.map (fun p => ((.str p.1 : JVal), f p.2))) (.str s0) =
      (alGet W s0).map f := by
  induction W with
  | nil => rfl
  | cons p rest ih =>
    by_cases he : p.1 = s0
    · simp [alGet, he]
    · simp [alGet, he, ih]

theorem map_str_pairwise (W : List (String × JVal)) (f : JVal → JVal)
    (h : W.Pairwise (fun a b => a.1 ≠ b.1)) :
    (W.map (fun p => ((.str p.1 : JVal), f p.2))).Pairwise (fun a b => a.1 ≠ b.1) := by
  rw [List.pairwise_map]
  exact h.imp (fun hne hc => hne (JVal.str.inj hc))

theorem normalize_all_cases (data : JVal) :
    ∃ st0 b0 ls0, normalize_all data = normLoop st0 ⟨st0, b0, ls0⟩ ∧
      StrKeys b0 ∧ b0.Pairwise (fun a b => a.1 ≠ b.1) := by
  cases data
  case obj kvs =>
    refine ⟨_, _, _, rfl, ?_, ?_⟩
    · cases hb : alGet kvs "byStore" with
      | none => intro p hp; exact absurd hp (List.not_mem_nil p)
      | some v =>
        cases v
        case obj bs =>
          show StrKeys (alDict (bs.map
            (fun p => ((.str p.1 : JVal), JVal.obj (normalize_store p.2)))))
          intro p hp
          rcases alFold_keys_sub _ [] p hp with h1 | ⟨q, hq, h2⟩
          · exact absurd h1 (List.not_mem_nil p)
          · obtain ⟨r, hr, hrq⟩ := List.mem_map.mp hq
            refine ⟨r.1, ?_⟩
            rw [h2, ← hrq]
        all_goals intro p hp; exact absurd hp (List.not_mem_nil p)
    · cases hb : alGet kvs "byStore" with
      | none => simp
      | some v =>
        cases v
        case obj bs =>
          show (alDict (bs.map
            (fun p => ((.str p.1 : JVal), JVal.obj (normalize_store p.2))))).Pairwise
            (fun a b => a.1 ≠ b.1)
          exact alDict_pairwise _
        all_goals simp
  all_goals exact ⟨default_stores, [], "", rfl,
    fun p hp => absurd hp (List.not_mem_nil p), by simp⟩

theorem normalize_all_props (data : JVal) (c : Catalog) (h : normalize_all data = .ok c)
    (H : ∀ x ∈ c.stores, ∃ s, x = JVal.str s) :
    StrKeys c.byStore ∧ c.byStore.Pairwise (fun a b => a.1 ≠ b.1) := by
  obtain ⟨st0, b0, ls0, heq, hstr, hpw⟩ := normalize_all_cases data
  rw [heq] at h
  have hmeta := normLoop_meta _ _ _ h
  constructor
  · refine normLoop_byStore_inv (fun k => ∃ s, k = JVal.str s) st0 _ c h hstr ?_
    intro s2 hs2
    exact H s2 (by rw [hmeta.1]; exact hs2)
  · exact normLoop_pairwise _ _ _ h hpw

/-! ## Claim C8: put/get round trip -/

/-- `POST /store/{name}` followed by `GET /store/{name}` through the
persisted JSON file. -/
def put_then_get (file : Option JVal) (name : String) (doc : JVal) (t : String) :
    Except String (List (String × JVal)) :=
  match save_store file name doc t with
  | .error e => .error e
  | .ok c =>
    match catalogToJVal c with
    | .error e => .error e
    | .ok j => get_store (some j) name

theorem C8_roundtrip_main (file : Option JVal) (name : String) (doc : JVal)
    (t : String) (d : Catalog)
    (hread : read_all file = .ok d)
    (H : ∀ x ∈ d.stores, ∃ s, x = JVal.str s) :
    put_then_get file name doc t = .ok (normalize_store doc) ∧
    ∀ c, save_store file name doc t = .ok c →
      ((.str name : JVal) ∈ c.stores ∧
       c.stores = (if (.str name : JVal) ∈ d.stores then d.stores
                   else d.stores ++ [.str name])) := by
  obtain ⟨hdStr, hdPw⟩ :=
    normalize_all_props (file.getD (.obj [])) d hread H
  have hsave : save_store file name doc t = .ok
      ⟨(if (.str name : JVal) ∈ d.stores then d.stores else d.stores ++ [.str name]),
       alSet d.byStore (.str name) (.obj (normalize_store doc)), t⟩ := by
    unfold save_store
    rw [hread]
  set stores2 := (if (.str name : JVal) ∈ d.stores then d.stores
                  else d.stores ++ [.str name]) with hstores2
  set b2 := alSet d.byStore (.str name) (.obj (normalize_store doc)) with hb2
  have hmem : (.str name : JVal) ∈ stores2 := by
    rw [hstores2]
    by_cases hc : (.str name : JVal) ∈ d.stores
    · rw [if_pos hc]; exact hc
    · rw [if_neg hc]; exact List.mem_append_right _ (List.mem_cons_self _ _)
  have hstores2Str : ∀ x ∈ stores2, ∃ s, x = JVal.str s := by
    intro x hx
    rw [hstores2] at hx
    by_cases hc : (.str name : JVal) ∈ d.stores
    · rw [if_pos hc] at hx; exact H x hx
    · rw [if_neg hc] at hx
      rcases List.mem_append.mp hx with h1 | h1
      · exact H x h1
      · simp at h1
        exact ⟨name, h1⟩
  have hb2Str : StrKeys b2 := by
    intro p hp
    rcases alSet_keys_sub _ _ _ p hp with h1 | h1
    · exact ⟨name, h1⟩
    · exact hdStr p h1
  have hb2Pw : b2.Pairwise (fun a b => a.1 ≠ b.1) := alSet_pairwise _ _ _ hdPw
  have hb2get : alGet b2 (.str name) = some (.obj (normalize_store doc)) :=
    alGet_alSet_self _ _ _
  have hser : keysToStrings b2 = .ok (unwrapKeys b2) := keysToStrings_ok b2 hb2Str
  have hW : alDict (unwrapKeys b2) = unwrapKeys b2 :=
    alDict_distinct _ (unwrapKeys_pairwise _ hb2Pw)
  set jv := JVal.obj [("stores", .arr stores2),
                      ("byStore", .obj (unwrapKeys b2)),
                      ("lastSync", .str t)] with hjv
  have hj : catalogToJVal ⟨stores2, b2, t⟩ = .ok jv := by
    unfold catalogToJVal
    simp only [hser, hW]
  set M := (unwrapKeys b2).map
    (fun p => ((.str p.1 : JVal), JVal.obj (normalize_store p.2))) with hM
  have hMpw : M.Pairwise (fun a b => a.1 ≠ b.1) :=
    map_str_pairwise (unwrapKeys b2) (fun v => JVal.obj (normalize_store v))
      (unwrapKeys_pairwise _ hb2Pw)
  have hnonempty : stores2.isEmpty = false := by
    cases hcs : stores2 with
    | nil => rw [hcs] at hmem; exact absurd hmem (List.not_mem_nil _)
    | cons a l => rfl
  have g1 : alGet [("stores", JVal.arr stores2), ("byStore", JVal.obj (unwrapKeys b2)),
      ("lastSync", JVal.str t)] "stores" = some (JVal.arr stores2) := by
    norm_num [alGet]
  have g2 : alGet [("stores", JVal.arr stores2), ("byStore", JVal.obj (unwrapKeys b2)),
      ("lastSync", JVal.str t)] "byStore" = some (JVal.obj (unwrapKeys b2)) := by
    simp only [alGet]
    rw [if_neg (show ¬("stores" : String) = "byStore" by decide)]
    simp
  have g3 : alGet [("stores", JVal.arr stores2), ("byStore", JVal.obj (unwrapKeys b2)),
      ("lastSync", JVal.str t)] "lastSync" = some (JVal.str t) := by
    simp only [alGet]
    rw [if_neg (show ¬("stores" : String) = "lastSync" by decide),
      if_neg (show ¬("byStore" : String) = "lastSync" by decide)]
    simp
  have hna : normalize_all jv = normLoop stores2 ⟨stores2, M, t⟩ := by
    rw [hjv]
    simp only [normalize_all]
    rw [g1, g2, g3]
    simp [hnonempty, alDict_distinct M hMpw]
  have hhash : ∀ s ∈ stores2, s.hashable = true := by
    intro s hs
    obtain ⟨s2, rfl⟩ := hstores2Str s hs
    rfl
  obtain ⟨final, hloop⟩ := normLoop_ok stores2 hhash ⟨stores2, M, t⟩
  have hMget : alGet M (.str name) = some (.obj (normalize_store doc)) := by
    rw [hM, alGet_map_str (unwrapKeys b2) (fun v => JVal.obj (normalize_store v)) name,
      alGet_unwrapKeys b2 hb2Str, hb2get]
    show some (JVal.obj (normalize_store (.obj (normalize_store doc)))) = _
    rw [normalize_store_idem]
  have hfinal : alGet final.byStore (.str name) = some (.obj (normalize_store doc)) :=
    normLoop_get stores2 ⟨stores2, M, t⟩ final hloop (.str name) (normalize_store doc)
      hMget (normalize_store_idem doc)
  have hra2 : read_all (some jv) = .ok final := by
    show normalize_all jv = .ok final
    rw [hna]
    exact hloop
  constructor
  · unfold put_then_get
    rw [hsave]
    simp only [hj]
    unfold get_store
    simp only [hra2, hfinal]
    rw [normalize_store_idem]
  · intro c hc
    rw [hsave] at hc
    injection hc with hc
    subst hc
    exact ⟨hmem, rfl⟩

/-- C8 counterexample: with a prior persisted state whose stores list holds
the number `1` and whose `byStore` holds the JSON key `"1"`, saving store
`"1"` and reading it back yields the default document, not the normalized
input — `json.dump` collapses the int key and the str key to the same JSON
key `"1"` and the reader keeps the wrong value. -/
theorem C8_counterexample :
    put_then_get
        (some (.obj [("stores", .arr [.num 1]), ("byStore", .obj [("1", .obj [])])]))
        "1" (.obj [("memo", .str "x")]) "t" = .ok default_store_data ∧
    default_store_data ≠ normalize_store (.obj [("memo", .str "x")]) := by
  constructor
  · decide
  · decide

/-- Witness for C8 (amended) at a concrete input: saving then reading
`"StoreA"` over the default catalog returns the normalized document. -/
theorem C8_roundtrip_main_witness :
    put_then_get (some (.obj [])) "StoreA" (.obj [("memo", .str "hi")]) "t" =
      .ok (normalize_store (.obj [("memo", .str "hi")])) := by
  have hH : ∀ x ∈ ([JVal.str "김경영 요리 연구소", JVal.str "청년회관"] : List JVal),
      ∃ s, x = JVal.str s := by
    intro x hx
    rcases List.mem_cons.mp hx with rfl | hx2
    · exact ⟨_, rfl⟩
    · rcases List.mem_cons.mp hx2 with rfl | hx3
      · exact ⟨_, rfl⟩
      · exact absurd hx3 (List.not_mem_nil x)
  exact (C8_roundtrip_main (some (.obj [])) "StoreA" (.obj [("memo", .str "hi")]) "t"
    ⟨[.str "김경영 요리 연구소", .str "청년회관"],
     [(.str "김경영 요리 연구소", .obj default_store_data),
      (.str "청년회관", .obj default_store_data)], ""⟩
    (by decide) hH).1
